import Mathlib

/-
Shallow embedding of `0x02-redis_basic/exercise.py`: a `Cache` class storing
scalar values in Redis under freshly generated UUID keys, with decorator-based
call counting (`count_calls`), call-history logging (`call_history`), typed
retrieval (`get`, `get_str`, `get_int`) and a `replay` report function.

Modelling conventions:
* Redis byte strings are carried by Lean `String`s, identified with their
  UTF-8 encoding; every byte value the program manipulates (UUID keys,
  decimal counters, serialized argument tuples) is valid UTF-8 text, so this
  carrier loses nothing the claims depend on.
* The Redis database is an association list from keys to values, where a
  value is either a byte string or a list (Redis `SET`/`GET`/`INCR` versus
  `RPUSH`/`LRANGE`).
* Python floats are carried by their shortest round-trip decimal `repr`
  string: the code only ever passes floats through to Redis as that text and
  never computes with them.
* The random UUID produced by `uuid.uuid4()` is passed to `store` as an
  explicit `genKey` argument (a deterministic oracle for the RNG).
* Raised Python/Redis exceptions are modelled by the `error` constructor of
  `PyResult`; each operation returns the state as mutated so far, so partial
  effects of a failing call are preserved, as in the real execution.
* Every call additionally returns the list of Redis commands it issued, in
  issue order, so that claims about operation ordering and read-onlyness can
  be stated.
-/

namespace Exercise

/-- Exceptions that the modelled fragment can raise: Redis WRONGTYPE errors,
Redis "value is not an integer" errors, Redis increment overflow, Python
`ValueError` (failed `int(...)` conversion) and Python `TypeError` (bad
call arity). -/
inductive PyErr where
  | wrongType
  | notInteger
  | overflow
  | valueError
  | typeError
deriving DecidableEq

/-- Result of running a fragment of Python code: a value or a raised
exception. -/
inductive PyResult (α : Type) where
  | ok (a : α)
  | error (e : PyErr)
deriving DecidableEq

/-- A Python scalar of one of the four types accepted by `Cache.store`.
Byte strings are carried by their UTF-8 text; floats by their decimal
`repr` text (see the module comment). -/
inductive PyVal where
  | str (s : String)
  | bytes (b : String)
  | int (n : Int)
  | float (r : String)
deriving DecidableEq

/-- A value held at a Redis key: a byte string or a list of byte strings. -/
inductive RVal where
  | str (b : String)
  | list (l : List String)
deriving DecidableEq

/-- The Redis database: an association list from keys to values.  Lookup
takes the first matching entry; the update operations erase shadowed
entries. -/
abbrev RedisState := List (String × RVal)

/-- A Redis command, as issued over the wire by the modelled code. -/
inductive RCmd where
  | set (k : String) (v : String)
  | get (k : String)
  | incr (k : String)
  | rpush (k : String) (v : String)
  | lrange (k : String) (a b : Int)
  | flushdb
deriving DecidableEq

/-- Decimal digit character for a value below ten. -/
def digitChar (d : Nat) : Char := Char.ofNat (48 + d)

/-- Fuel-driven most-significant-first decimal digits of a natural number
(the fuel argument makes the recursion structural; `natDigits` supplies
enough fuel). -/
def natDigitsAux : Nat → Nat → List Char
  | 0, _ => []
  | fuel + 1, n =>
    if n < 10 then [digitChar n]
    else natDigitsAux fuel (n / 10) ++ [digitChar (n % 10)]

/-- Decimal digits of a natural number, most significant first. -/
def natDigits (n : Nat) : List Char := natDigitsAux (n + 1) n

/-- Decimal text of a natural number. -/
def natToDec (n : Nat) : String := (natDigits n).asString

/-- Model of Python `str` on an `int` (also the decimal text Redis stores
after `INCR`): optional minus sign followed by the decimal digits. -/
def decRepr (m : Int) : String :=
  if m < 0 then "-" ++ natToDec m.natAbs else natToDec m.toNat

/-- One step of most-significant-first decimal accumulation. -/
def stepDigit (a : Nat) (c : Char) : Nat := a * 10 + (c.toNat - 48)

/-- Parse a nonempty all-digit character list as a natural number. -/
def parseDigits (cs : List Char) : Option Nat :=
  if cs.isEmpty then none
  else if cs.all Char.isDigit then some (cs.foldl stepDigit 0) else none

/-- Model of Python's `int` builtin applied to a byte string: an optional
sign followed by decimal digits.  (Python additionally strips surrounding
whitespace and allows underscores between digits; no such input is produced
or consumed by this program.) -/
def pyInt (s : String) : Option Int :=
  match s.toList with
  | [] => none
  | c :: rest =>
    if c = '-' then (parseDigits rest).map (fun n => -(n : Int))
    else if c = '+' then (parseDigits rest).map (fun n => (n : Int))
    else (parseDigits (c :: rest)).map (fun n => (n : Int))

/-- The value 2 ^ 63, written as a literal. -/
def i64Lim : Int := 9223372036854775808

/-- Largest signed 64-bit integer; Redis counters live in this range. -/
def maxI64 : Int := i64Lim - 1

/-- Smallest signed 64-bit integer. -/
def minI64 : Int := -i64Lim

/-- Model of Redis `string2ll` digit parsing: a single `0`, or a nonzero
leading digit followed by digits (leading zeros are rejected). -/
def redisDigits : List Char → Option Nat
  | [] => none
  | c :: rest =>
    if c = '0' ∧ rest = [] then some 0
    else if ('1' ≤ c ∧ c ≤ '9') ∧ rest.all Char.isDigit then
      some (rest.foldl stepDigit (c.toNat - 48))
    else none

/-- Model of Redis `string2ll`: the string-to-integer parse used by `INCR`,
rejecting malformed text, `-0`, leading zeros and out-of-64-bit-range
values. -/
def redisParseInt (s : String) : Option Int :=
  match s.toList with
  | [] => none
  | c :: rest =>
    if c = '-' then
      match redisDigits rest with
      | some n => if 0 < n ∧ (n : Int) ≤ i64Lim then some (-(n : Int)) else none
      | none => none
    else
      match redisDigits (c :: rest) with
      | some n => if (n : Int) ≤ maxI64 then some n else none
      | none => none

/-- The single-quote character (used when building Python `repr` text). -/
def quoteC : Char := Char.ofNat 39

/-- The backslash character. -/
def backslashC : Char := Char.ofNat 92

/-- Escape backslashes and single quotes, as Python `repr` does inside a
single-quoted string.  (Python's switch to double quotes and its
control-character escapes are not exercised by this program's data.) -/
def pyEscape (s : String) : String :=
  (s.toList.foldr
    (fun c acc =>
      if c = backslashC then backslashC :: backslashC :: acc
      else if c = quoteC then backslashC :: quoteC :: acc
      else c :: acc) []).asString

/-- Python `repr` of a text string: single-quoted, escaped. -/
def pyReprStr (s : String) : String := "'" ++ pyEscape s ++ "'"

/-- Python `repr` of a scalar value. -/
def pyRepr : PyVal → String
  | .str s => pyReprStr s
  | .bytes b => "b" ++ pyReprStr b
  | .int n => decRepr n
  | .float r => r

/-- Python `str` of a scalar value (`str` of a `str` is itself; for the
other scalars it agrees with `repr`). -/
def pyStr : PyVal → String
  | .str s => s
  | .bytes b => "b" ++ pyReprStr b
  | .int n => decRepr n
  | .float r => r

/-- Python `str` of the positional-argument tuple, as logged by
`call_history` (`str(args)`). -/
def pyStrTuple (args : List PyVal) : String :=
  match args with
  | [] => "()"
  | [a] => "(" ++ pyRepr a ++ ",)"
  | _ => "(" ++ String.intercalate ", " (args.map pyRepr) ++ ")"

/-- Python `repr` of a bytes value fetched from Redis, as interpolated by
`replay`'s `{...!r}` format. -/
def bytesRepr (b : String) : String := "b" ++ pyReprStr b

/-- Encoding applied by the Redis client when writing a Python scalar:
text as its UTF-8 bytes, bytes as themselves, numbers as their decimal
`repr` text. -/
def encode : PyVal → String
  | .str s => s
  | .bytes b => b
  | .int n => decRepr n
  | .float r => r

/-- Look up a Redis key (first matching entry of the association list). -/
def rlookup : RedisState → String → Option RVal
  | [], _ => none
  | (k, v) :: rest, key => if k = key then some v else rlookup rest key

/-- Remove every entry for a key. -/
def rremove : RedisState → String → RedisState
  | [], _ => []
  | (k, v) :: rest, key =>
    if k = key then rremove rest key else (k, v) :: rremove rest key

/-- Redis `SET`: overwrite the key (whatever its previous type) with a byte
string. -/
def rset (st : RedisState) (k : String) (v : String) : RedisState :=
  (k, .str v) :: rremove st k

/-- Store a list value at a key (the result of a push). -/
def rsetList (st : RedisState) (k : String) (l : List String) : RedisState :=
  (k, .list l) :: rremove st k

/-- Redis `GET`: `nil` on a missing key, the byte string on a string key,
a WRONGTYPE error on a list key. -/
def rget (st : RedisState) (k : String) : PyResult (Option String) :=
  match rlookup st k with
  | none => .ok none
  | some (.str b) => .ok (some b)
  | some (.list _) => .error .wrongType

/-- Redis `INCR`: a missing key becomes `1`; a string key is parsed as a
64-bit integer (error if malformed) and incremented (error on overflow);
a list key is a WRONGTYPE error. -/
def rincr (st : RedisState) (k : String) : PyResult (Int × RedisState) :=
  match rlookup st k with
  | none => .ok (1, rset st k (decRepr 1))
  | some (.str s) =>
    match redisParseInt s with
    | none => .error .notInteger
    | some c =>
      if c + 1 ≤ maxI64 then .ok (c + 1, rset st k (decRepr (c + 1)))
      else .error .overflow
  | some (.list _) => .error .wrongType

/-- Redis `RPUSH` of a single element: appends at the right end, creating
the list if the key is missing; WRONGTYPE on a string key. -/
def rpush (st : RedisState) (k : String) (v : String) : PyResult RedisState :=
  match rlookup st k with
  | none => .ok (rsetList st k [v])
  | some (.list l) => .ok (rsetList st k (l ++ [v]))
  | some (.str _) => .error .wrongType

/-- Redis `LRANGE key 0 -1`: the whole list, empty for a missing key,
WRONGTYPE on a string key. -/
def lrangeAll (st : RedisState) (k : String) : PyResult (List String) :=
  match rlookup st k with
  | none => .ok []
  | some (.list l) => .ok l
  | some (.str _) => .error .wrongType

/-- Redis `FLUSHDB`: drop every key. -/
def flushdb (_st : RedisState) : RedisState := []

/-- State effect of a single Redis command (reads leave the state alone;
a failing write also leaves it alone, as in Redis). -/
def execCmd (st : RedisState) (c : RCmd) : RedisState :=
  match c with
  | .set k v => rset st k v
  | .get _ => st
  | .incr k => match rincr st k with | .ok p => p.2 | .error _ => st
  | .rpush k v => match rpush st k v with | .ok s => s | .error _ => st
  | .lrange _ _ _ => st
  | .flushdb => []

/-- The list held at a key, read as a log (empty when the key is absent or
holds a non-list value). -/
def listAt (st : RedisState) (k : String) : List String :=
  match rlookup st k with
  | some (.list l) => l
  | _ => []

/-- The key is usable as a list: absent or already a list. -/
def listOk (st : RedisState) (k : String) : Bool :=
  match rlookup st k with
  | some (.str _) => false
  | _ => true

/-- The key is usable as an `INCR` counter: absent or a string Redis can
parse as a 64-bit integer. -/
def counterOkB (st : RedisState) (k : String) : Bool :=
  match rlookup st k with
  | none => true
  | some (.str s) => (redisParseInt s).isSome
  | some (.list _) => false

/-- The counter value at a key, as Redis `INCR` sees it (0 when absent or
unparsable). -/
def counterVal (st : RedisState) (k : String) : Int :=
  match rlookup st k with
  | some (.str s) => (redisParseInt s).getD 0
  | _ => 0

/-- The key can be read by `replay`'s `int(... or 0)` without raising:
absent, empty, or text Python's `int` accepts (and not a list, which would
already make the `GET` raise). -/
def counterReadable (st : RedisState) (k : String) : Bool :=
  match rlookup st k with
  | none => true
  | some (.str s) => s = "" || (pyInt s).isSome
  | some (.list _) => false

/-- The counter value as `replay` computes it with Python's `int(x or 0)`.
when the key is readable. -/
def pyCounterVal (st : RedisState) (k : String) : Int :=
  match rlookup st k with
  | some (.str s) => if s = "" then 0 else (pyInt s).getD 0
  | _ => 0

/-- Model of `int(cache._redis.get(method_name) or 0)`: a missing reply or
empty byte string is falsy and yields 0; otherwise Python `int` parses the
bytes, raising `ValueError` on failure. -/
def pyIntOrZero (d : Option String) : PyResult Int :=
  match d with
  | none => .ok 0
  | some s =>
    if s = "" then .ok 0
    else match pyInt s with
      | some n => .ok n
      | none => .error .valueError

/-- Keyword arguments of a Python call: name/value pairs. -/
abbrev Kwargs := List (String × PyVal)

/-- A Python method body as seen by the decorators: it receives the state
of the backing store, the positional arguments and the keyword arguments,
and produces a result (or exception), the mutated store, and the Redis
commands it issued. -/
abbrev Method := RedisState → List PyVal → Kwargs → PyResult PyVal × RedisState × List RCmd

/-- The `call_history` decorator (lines 30-46): push `str(args)` onto the
`<qualname>:inputs` list, run the wrapped method, push `str(output)` onto
`<qualname>:outputs`, and return the output.  An exception at any step
propagates, skipping the later pushes. -/
def call_history (qual : String) (m : Method) : Method := fun st args kwargs =>
  match rpush st (qual ++ ":inputs") (pyStrTuple args) with
  | .error e => (.error e, st, [.rpush (qual ++ ":inputs") (pyStrTuple args)])
  | .ok st1 =>
    match m st1 args kwargs with
    | (.error e, st2, tr) =>
      (.error e, st2, .rpush (qual ++ ":inputs") (pyStrTuple args) :: tr)
    | (.ok out, st2, tr) =>
      match rpush st2 (qual ++ ":outputs") (pyStr out) with
      | .error e =>
        (.error e, st2,
          .rpush (qual ++ ":inputs") (pyStrTuple args) ::
            (tr ++ [.rpush (qual ++ ":outputs") (pyStr out)]))
      | .ok st3 =>
        (.ok out, st3,
          .rpush (qual ++ ":inputs") (pyStrTuple args) ::
            (tr ++ [.rpush (qual ++ ":outputs") (pyStr out)]))

/-- The `count_calls` decorator (lines 49-60): `INCR` the qualified-name
key, then run the wrapped method.  An exception from the `INCR`
propagates, skipping the call. -/
def count_calls (qual : String) (m : Method) : Method := fun st args kwargs =>
  match rincr st qual with
  | .error e => (.error e, st, [.incr qual])
  | .ok nst =>
    let res := m nst.2 args kwargs
    (res.1, res.2.1, .incr qual :: res.2.2)

/-- The undecorated body of `Cache.store` (lines 73-82): `SET` the value,
encoded by the client, under the freshly generated key and return the key.
The single `data` argument may be passed positionally or as the keyword
`data`; any other call shape raises `TypeError`. -/
def storeBody (genKey : String) : Method := fun st args kwargs =>
  match args, kwargs with
  | [data], [] => (.ok (.str genKey), rset st genKey (encode data), [.set genKey (encode data)])
  | [], [(kw, data)] =>
    if kw = "data" then
      (.ok (.str genKey), rset st genKey (encode data), [.set genKey (encode data)])
    else (.error .typeError, st, [])
  | _, _ => (.error .typeError, st, [])

/-- Qualified name of the store method, as `method.__qualname__` yields it
(and as `functools.wraps` copies it through both decorators). -/
def storeQual : String := "Cache.store"

/-- Key of the inputs log of `Cache.store`. -/
def inputsKey : String := storeQual ++ ":inputs"

/-- Key of the outputs log of `Cache.store`. -/
def outputsKey : String := storeQual ++ ":outputs"

/-- `Cache.store` as the program defines it: the raw body wrapped by
`count_calls` inside `call_history` (decorators listed bottom-up), applied
to one positional argument.  `genKey` is the UUID the RNG produced for
this call. -/
def Cache.store (st : RedisState) (genKey : String) (data : PyVal) :
    PyResult PyVal × RedisState × List RCmd :=
  call_history storeQual (count_calls storeQual (storeBody genKey)) st [data] []

/-- `Cache.get` (lines 84-95): `GET` the key; a missing key returns the
`None` sentinel without consulting the converter; otherwise the converter,
when supplied, is applied to the raw bytes (its exceptions propagate), and
without a converter the raw bytes are returned. -/
def Cache.get (st : RedisState) (key : String)
    (fn : Option (String → PyResult PyVal)) : PyResult (Option PyVal) :=
  match rget st key with
  | .error e => .error e
  | .ok none => .ok none
  | .ok (some data) =>
    match fn with
    | some f =>
      match f data with
      | .error e => .error e
      | .ok v => .ok (some v)
    | none => .ok (some (.bytes data))

/-- The converter `lambda d: d.decode("utf-8")` of `get_str`.  With byte
strings carried by their UTF-8 text the decode is the identity; the decode
errors of invalid UTF-8 have no representable input here. -/
def decodeUtf8 (b : String) : PyResult PyVal := .ok (.str b)

/-- The converter `int` of `get_int`: Python `int` on the raw bytes,
raising `ValueError` on unparsable text. -/
def pyIntFn (b : String) : PyResult PyVal :=
  match pyInt b with
  | some n => .ok (.int n)
  | none => .error .valueError

/-- `Cache.get_str` (lines 97-104). -/
def Cache.get_str (st : RedisState) (key : String) : PyResult (Option PyVal) :=
  Cache.get st key (some decodeUtf8)

/-- `Cache.get_int` (lines 106-111). -/
def Cache.get_int (st : RedisState) (key : String) : PyResult (Option PyVal) :=
  Cache.get st key (some pyIntFn)

/-- `Cache.__init__` (lines 64-69): connect to the backing store (whose
current contents are `prior`) and flush the whole database. -/
def Cache.initCache (prior : RedisState) : RedisState := flushdb prior

/-- First line printed by `replay`. -/
def replayHeader (name : String) (count : Int) : String :=
  name ++ " was called " ++ decRepr count ++ " times:"

/-- One `(input, output)` line printed by `replay`. -/
def fmtPair (name : String) (p : String × String) : String :=
  name ++ "(*" ++ bytesRepr p.1 ++ ") -> " ++ bytesRepr p.2

/-- `replay` (lines 10-27), for the method with the given qualified name:
read the call counter (`int(get(name) or 0)`), read both logs in full, and
print the header followed by one line per zipped `(input, output)` pair.
The returned list collects the printed lines; an exception discards them
(the claims proved below only evaluate `replay` where no line precedes the
raise). -/
def Cache.replay (st : RedisState) (name : String) : PyResult (List String) :=
  match rget st name with
  | .error e => .error e
  | .ok d =>
    match pyIntOrZero d with
    | .error e => .error e
    | .ok callCount =>
      match lrangeAll st (name ++ ":inputs") with
      | .error e => .error e
      | .ok inputs =>
        match lrangeAll st (name ++ ":outputs") with
        | .error e => .error e
        | .ok outputs =>
          .ok (replayHeader name callCount ::
            (inputs.zip outputs).map (fmtPair name))

/-- The Redis commands `replay` issues, in order: one `GET` and two full
`LRANGE`s — reads only. -/
def replayCmds (name : String) : List RCmd :=
  [.get name, .lrange (name ++ ":inputs") 0 (-1), .lrange (name ++ ":outputs") 0 (-1)]

/-- Calling `store` once per `(generated key, value)` pair, stopping (with
the state as mutated so far) if a call raises. -/
def storeN : RedisState → List (String × PyVal) → PyResult Unit × RedisState
  | st, [] => (.ok (), st)
  | st, (k, d) :: rest =>
    match Cache.store st k d with
    | (.ok _, st', _) => storeN st' rest
    | (.error e, st', _) => (.error e, st')

/-- Modelled from the spec's wording of `store(value)` (claim C5): the
operation order it asserts is generate the identifier, write the value,
increment the counter, then append to the input and output logs.  Stated
as the Redis command sequence that order would issue, for comparison with
the sequence the code actually issues. -/
def specOrderStoreCmds (genKey : String) (d : PyVal) : List RCmd :=
  [.set genKey (encode d), .incr storeQual,
   .rpush inputsKey (pyStrTuple [d]), .rpush outputsKey genKey]

/-- States reachable by the facade's own completed operations: the flushed
state `Cache.__init__` leaves, closed under successful `store` calls whose
generated UUID key (which never collides with the dotted/colon-bearing
instrumentation key names) differs from the counter and log keys.  The
read operations (`get`, `get_str`, `get_int`, `replay`) do not mutate the
store and add no states. -/
inductive Reachable : RedisState → Prop where
  | init : Reachable []
  | store (st st' : RedisState) (k : String) (d : PyVal) (r : PyVal) (tr : List RCmd) :
      Reachable st → k ≠ storeQual → k ≠ inputsKey → k ≠ outputsKey →
      Cache.store st k d = (.ok r, st', tr) → Reachable st'

/-- A decimal digit character is a digit. -/
theorem digitChar_isDigit {d : Nat} (h : d < 10) : (digitChar d).isDigit = true := by
  interval_cases d <;> decide

/-- Code point of a decimal digit character. -/
theorem digitChar_toNat {d : Nat} (h : d < 10) : (digitChar d).toNat = 48 + d := by
  interval_cases d <;> decide

/-- Accumulating a digit character adds its value. -/
theorem stepDigit_digitChar (a : Nat) {d : Nat} (h : d < 10) :
    stepDigit a (digitChar d) = a * 10 + d := by
  unfold stepDigit
  rw [digitChar_toNat h]
  omega

/-- With enough fuel, the decimal digit list of `n` is nonempty, consists of
digits, and folds back to `n`. -/
theorem natDigitsAux_spec : ∀ (fuel n : Nat), n < fuel →
    natDigitsAux fuel n ≠ [] ∧ (natDigitsAux fuel n).all Char.isDigit = true ∧
    (natDigitsAux fuel n).foldl stepDigit 0 = n := by
  intro fuel
  induction fuel with
  | zero => intro n h; omega
  | succ f ih =>
    intro n h
    by_cases h10 : n < 10
    · simp only [natDigitsAux, if_pos h10]
      refine ⟨by simp, ?_, ?_⟩
      · simp [digitChar_isDigit h10]
      · show stepDigit 0 (digitChar n) = n
        rw [stepDigit_digitChar 0 h10]
        omega
    · have hn10 : 10 ≤ n := by omega
      have hdivlt : n / 10 < n := Nat.div_lt_self (by omega) (by omega)
      obtain ⟨h1, h2, h3⟩ := ih (n / 10) (by omega)
      have hmod : n % 10 < 10 := Nat.mod_lt n (by omega)
      simp only [natDigitsAux, if_neg h10]
      refine ⟨by simp, ?_, ?_⟩
      · rw [List.all_append, h2]
        simp [digitChar_isDigit hmod]
      · rw [List.foldl_append, h3]
        show stepDigit (n / 10) (digitChar (n % 10)) = n
        rw [stepDigit_digitChar _ hmod]
        omega

/-- Parsing the decimal digits of `n` recovers `n`. -/
theorem parseDigits_natDigits (n : Nat) : parseDigits (natDigits n) = some n := by
  obtain ⟨h1, h2, h3⟩ := natDigitsAux_spec (n + 1) n (Nat.lt_succ_self n)
  have hne : (natDigitsAux (n + 1) n).isEmpty = false := by
    cases hx : natDigitsAux (n + 1) n with
    | nil => exact absurd hx h1
    | cons a l => rfl
  show parseDigits (natDigitsAux (n + 1) n) = some n
  simp [parseDigits, hne, h2, h3]

/-- A digit character is not the minus sign. -/
theorem isDigit_ne_minus {c : Char} (h : c.isDigit = true) : ¬ c = '-' := by
  intro he
  subst he
  exact absurd h (by decide)

/-- A digit character is not the plus sign. -/
theorem isDigit_ne_plus {c : Char} (h : c.isDigit = true) : ¬ c = '+' := by
  intro he
  subst he
  exact absurd h (by decide)

/-- With enough fuel, the digit list of a positive `n` starts with a
nonzero digit. -/
theorem natDigitsAux_head : ∀ (fuel n : Nat), n < fuel → 1 ≤ n →
    ∃ c rest, natDigitsAux fuel n = c :: rest ∧ ('1' ≤ c ∧ c ≤ '9') := by
  intro fuel
  induction fuel with
  | zero => intro n h; omega
  | succ f ih =>
    intro n h hpos
    by_cases h10 : n < 10
    · refine ⟨digitChar n, [], by simp [natDigitsAux, if_pos h10], ?_⟩
      interval_cases n <;> exact (by decide)
    · have hn10 : 10 ≤ n := by omega
      have hdivlt : n / 10 < n := Nat.div_lt_self (by omega) (by omega)
      obtain ⟨c, rest, heq, hc⟩ := ih (n / 10) (by omega) (by omega)
      exact ⟨c, rest ++ [digitChar (n % 10)], by simp [natDigitsAux, if_neg h10, heq], hc⟩

/-- The character list of the decimal text of `n` is its digit list. -/
theorem data_natToDec (n : Nat) : (natToDec n).data = natDigits n := rfl

/-- Characters of a concatenation. -/
theorem data_strAppend (a b : String) : (a ++ b).data = a.data ++ b.data := rfl

/-- Redis digit parsing recovers `n` from its decimal digits. -/
theorem redisDigits_natDigits (n : Nat) : redisDigits (natDigits n) = some n := by
  rcases Nat.eq_zero_or_pos n with h0 | hpos
  · subst h0; decide
  · obtain ⟨c, rest, heq, hc1, hc9⟩ := natDigitsAux_head (n + 1) n (Nat.lt_succ_self n) hpos
    obtain ⟨h1, h2, h3⟩ := natDigitsAux_spec (n + 1) n (Nat.lt_succ_self n)
    unfold natDigits at *
    rw [heq] at h2 h3 ⊢
    have hnot0 : ¬ (c = '0' ∧ rest = []) := by
      rintro ⟨he, -⟩
      subst he
      exact absurd hc1 (by decide)
    have hall : rest.all Char.isDigit = true := by
      simp only [List.all_cons, Bool.and_eq_true] at h2
      exact h2.2
    rw [List.foldl_cons] at h3
    have hstep : stepDigit 0 c = c.toNat - 48 := by unfold stepDigit; omega
    rw [hstep] at h3
    simp [redisDigits, hnot0, hc1, hc9, hall, h3]

/-- Python `int` inverts the store's decimal encoding of an integer. -/
theorem pyInt_decRepr (m : Int) : pyInt (decRepr m) = some m := by
  by_cases hm : m < 0
  · have hdec : decRepr m = "-" ++ natToDec m.natAbs := by
      unfold decRepr
      rw [if_pos hm]
    have hl : (decRepr m).data = '-' :: natDigits m.natAbs := by
      rw [hdec, data_strAppend]
      rfl
    have habs : (m.natAbs : Int) = -m := Int.ofNat_natAbs_of_nonpos (le_of_lt hm)
    have hpd : parseDigits (natDigits m.natAbs) = some m.natAbs := parseDigits_natDigits _
    simp [pyInt, hl, hpd, habs]
  · have hdec : decRepr m = natToDec m.toNat := by
      unfold decRepr
      rw [if_neg hm]
    obtain ⟨h1, h2, h3⟩ := natDigitsAux_spec (m.toNat + 1) m.toNat (Nat.lt_succ_self _)
    cases hx : natDigits m.toNat with
    | nil => exact absurd hx h1
    | cons c rest =>
      have hx' : natDigitsAux (m.toNat + 1) m.toNat = c :: rest := hx
      have hl : (decRepr m).data = c :: rest := by rw [hdec, data_natToDec, hx]
      have hcd : c.isDigit = true := by
        rw [hx'] at h2
        simp only [List.all_cons, Bool.and_eq_true] at h2
        exact h2.1
      have htn : ((m.toNat : Int)) = m := Int.toNat_of_nonneg (not_lt.mp hm)
      have hpd : parseDigits (c :: rest) = some m.toNat := by
        rw [← hx']
        exact parseDigits_natDigits m.toNat
      simp [pyInt, hl, isDigit_ne_minus hcd, isDigit_ne_plus hcd, hpd, htn]

/-- Redis `string2ll` inverts the decimal encoding of any 64-bit integer. -/
theorem redisParseInt_decRepr (m : Int) (hlo : minI64 ≤ m) (hhi : m ≤ maxI64) :
    redisParseInt (decRepr m) = some m := by
  by_cases hm : m < 0
  · have hdec : decRepr m = "-" ++ natToDec m.natAbs := by
      unfold decRepr
      rw [if_pos hm]
    have hl : (decRepr m).data = '-' :: natDigits m.natAbs := by
      rw [hdec, data_strAppend]
      rfl
    have habs : (m.natAbs : Int) = -m := Int.ofNat_natAbs_of_nonpos (le_of_lt hm)
    have hc1 : 0 < m.natAbs := Int.natAbs_pos.mpr (by omega)
    have hc2 : (m.natAbs : Int) ≤ i64Lim := by
      rw [habs]
      simp only [minI64] at hlo
      omega
    have hc2' : -m ≤ i64Lim := by rw [← habs]; exact hc2
    have hrd : redisDigits (natDigits m.natAbs) = some m.natAbs := redisDigits_natDigits _
    simp [redisParseInt, hl, hrd, habs, hc1, hc2, hc2']
  · have hdec : decRepr m = natToDec m.toNat := by
      unfold decRepr
      rw [if_neg hm]
    obtain ⟨h1, h2, h3⟩ := natDigitsAux_spec (m.toNat + 1) m.toNat (Nat.lt_succ_self _)
    cases hx : natDigits m.toNat with
    | nil => exact absurd hx h1
    | cons c rest =>
      have hx' : natDigitsAux (m.toNat + 1) m.toNat = c :: rest := hx
      have hl : (decRepr m).data = c :: rest := by rw [hdec, data_natToDec, hx]
      have hcd : c.isDigit = true := by
        rw [hx'] at h2
        simp only [List.all_cons, Bool.and_eq_true] at h2
        exact h2.1
      have htn : ((m.toNat : Int)) = m := Int.toNat_of_nonneg (not_lt.mp hm)
      have hcond : (m.toNat : Int) ≤ maxI64 := by rw [htn]; exact hhi
      have hrd : redisDigits (c :: rest) = some m.toNat := by
        rw [← hx']
        exact redisDigits_natDigits m.toNat
      simp [redisParseInt, hl, isDigit_ne_minus hcd, hrd, htn, hhi, hcond]

/-- Any value Redis parses from a counter string is a 64-bit integer. -/
theorem redisParseInt_bounds {s : String} {c : Int} (h : redisParseInt s = some c) :
    minI64 ≤ c ∧ c ≤ maxI64 := by
  unfold redisParseInt at h
  split at h
  · exact absurd h (by simp)
  · split at h
    · split at h
      · split at h
        · rename_i hcond
          injection h with h
          simp only [minI64, maxI64, i64Lim] at hcond ⊢
          omega
        · exact absurd h (by simp)
      · exact absurd h (by simp)
    · split at h
      · split at h
        · rename_i hcond
          injection h with h
          simp only [minI64, maxI64, i64Lim] at hcond ⊢
          omega
        · exact absurd h (by simp)
      · exact absurd h (by simp)

/-- Looking up after removing a key. -/
theorem rlookup_rremove (st : RedisState) (k key : String) :
    rlookup (rremove st k) key = if key = k then none else rlookup st key := by
  induction st with
  | nil =>
    show rlookup [] key = if key = k then none else rlookup [] key
    split <;> rfl
  | cons p rest ih =>
    obtain ⟨k', v⟩ := p
    by_cases h : k' = k
    · rw [show rremove ((k', v) :: rest) k = rremove rest k by simp [rremove, h], ih]
      by_cases h1 : key = k
      · rw [if_pos h1, if_pos h1]
      · rw [if_neg h1, if_neg h1]
        show rlookup rest key = if k' = key then some v else rlookup rest key
        rw [if_neg (fun he : k' = key => h1 (he.symm.trans h))]
    · rw [show rremove ((k', v) :: rest) k = (k', v) :: rremove rest k by simp [rremove, h]]
      show (if k' = key then some v else rlookup (rremove rest k) key) = _
      by_cases h2 : k' = key
      · rw [if_pos h2, if_neg (fun he => h (h2.trans he)),
          show rlookup ((k', v) :: rest) key = some v by simp [rlookup, h2]]
      · rw [if_neg h2, ih,
          show rlookup ((k', v) :: rest) key = rlookup rest key by simp [rlookup, h2]]

/-- `SET` writes the key. -/
theorem rlookup_rset_self (st : RedisState) (k v : String) :
    rlookup (rset st k v) k = some (.str v) := by
  simp [rset, rlookup]

/-- `SET` leaves other keys alone. -/
theorem rlookup_rset_ne (st : RedisState) (k v : String) {key : String} (h : key ≠ k) :
    rlookup (rset st k v) key = rlookup st key := by
  show (if k = key then some (RVal.str v) else rlookup (rremove st k) key) = rlookup st key
  rw [if_neg (fun he : k = key => h he.symm), rlookup_rremove, if_neg h]

/-- Writing a list value writes the key. -/
theorem rlookup_rsetList_self (st : RedisState) (k : String) (l : List String) :
    rlookup (rsetList st k l) k = some (.list l) := by
  simp [rsetList, rlookup]

/-- Writing a list value leaves other keys alone. -/
theorem rlookup_rsetList_ne (st : RedisState) (k : String) (l : List String) {key : String}
    (h : key ≠ k) : rlookup (rsetList st k l) key = rlookup st key := by
  show (if k = key then some (RVal.list l) else rlookup (rremove st k) key) = rlookup st key
  rw [if_neg (fun he : k = key => h he.symm), rlookup_rremove, if_neg h]

/-- The log view only depends on the key's looked-up value. -/
theorem listAt_congr {st1 st2 : RedisState} {k : String}
    (h : rlookup st1 k = rlookup st2 k) : listAt st1 k = listAt st2 k := by
  unfold listAt
  rw [h]

/-- List-usability only depends on the key's looked-up value. -/
theorem listOk_congr {st1 st2 : RedisState} {k : String}
    (h : rlookup st1 k = rlookup st2 k) : listOk st1 k = listOk st2 k := by
  unfold listOk
  rw [h]

/-- Counter-usability only depends on the key's looked-up value. -/
theorem counterOkB_congr {st1 st2 : RedisState} {k : String}
    (h : rlookup st1 k = rlookup st2 k) : counterOkB st1 k = counterOkB st2 k := by
  unfold counterOkB
  rw [h]

/-- The counter view only depends on the key's looked-up value. -/
theorem counterVal_congr {st1 st2 : RedisState} {k : String}
    (h : rlookup st1 k = rlookup st2 k) : counterVal st1 k = counterVal st2 k := by
  unfold counterVal
  rw [h]

/-- A successful `RPUSH` appends to the key's log. -/
theorem rpush_ok_lookup {st : RedisState} {k v : String} {st' : RedisState}
    (h : rpush st k v = .ok st') : rlookup st' k = some (.list (listAt st k ++ [v])) := by
  unfold rpush at h
  split at h
  · rename_i hx
    injection h with h
    subst h
    rw [rlookup_rsetList_self]
    unfold listAt
    rw [hx]
    rfl
  · rename_i l hx
    injection h with h
    subst h
    rw [rlookup_rsetList_self]
    unfold listAt
    rw [hx]
  · exact PyResult.noConfusion h

/-- A successful `RPUSH` leaves other keys alone. -/
theorem rpush_ok_lookup_ne {st : RedisState} {k v : String} {st' : RedisState}
    (h : rpush st k v = .ok st') {key : String} (hne : key ≠ k) :
    rlookup st' key = rlookup st key := by
  unfold rpush at h
  split at h
  · injection h with h
    subst h
    exact rlookup_rsetList_ne _ _ _ hne
  · injection h with h
    subst h
    exact rlookup_rsetList_ne _ _ _ hne
  · exact PyResult.noConfusion h

/-- `RPUSH` succeeds exactly on a list-usable key device. -/
theorem rpush_of_listOk {st : RedisState} {k : String} (h : listOk st k = true) (v : String) :
    rpush st k v = .ok (rsetList st k (listAt st k ++ [v])) := by
  unfold listOk at h
  unfold rpush listAt
  cases hx : rlookup st k with
  | none => rfl
  | some rv =>
    cases rv with
    | str s =>
      rw [hx] at h
      simp at h
    | list l => rfl

/-- A successful `RPUSH` never happens on a string-typed key. -/
theorem rpush_ok_not_str {st : RedisState} {k v : String} {st' : RedisState}
    (h : rpush st k v = .ok st') (s : String) : rlookup st k ≠ some (.str s) := by
  intro hx
  unfold rpush at h
  rw [hx] at h
  exact absurd h (by simp)

/-- What a successful `INCR` guarantees: the key now holds the decimal text
of the new value, which is the old counter view plus one and lies in the
64-bit range; other keys are untouched. -/
theorem rincr_ok_spec {st : RedisState} {k : String} {n : Int} {st' : RedisState}
    (h : rincr st k = .ok (n, st')) :
    rlookup st' k = some (.str (decRepr n)) ∧ n = counterVal st k + 1 ∧
    minI64 ≤ n ∧ n ≤ maxI64 ∧
    (∀ key, key ≠ k → rlookup st' key = rlookup st key) := by
  unfold rincr at h
  split at h
  · rename_i hx
    injection h with h
    injection h with hn hst
    subst hn
    subst hst
    have hcv : counterVal st k = 0 := by
      unfold counterVal
      rw [hx]
    refine ⟨rlookup_rset_self .., by rw [hcv]; simp, by decide, by decide, ?_⟩
    intro key hk
    exact rlookup_rset_ne _ _ _ hk
  · rename_i s hx
    split at h
    · exact PyResult.noConfusion h
    · rename_i c hparse
      split at h
      · rename_i hle
        injection h with h
        injection h with hn hst
        subst hn
        subst hst
        obtain ⟨hb1, hb2⟩ := redisParseInt_bounds hparse
        have hcv : counterVal st k = c := by
          unfold counterVal
          rw [hx]
          show (redisParseInt s).getD 0 = c
          rw [hparse]
          rfl
        refine ⟨rlookup_rset_self .., by rw [hcv], ?_, hle, ?_⟩
        · simp only [minI64, i64Lim] at hb1 ⊢
          omega
        · intro key hk
          exact rlookup_rset_ne _ _ _ hk
      · exact PyResult.noConfusion h
  · exact PyResult.noConfusion h

/-- `INCR` succeeds on a usable counter with headroom, storing the decimal
text of the incremented value. -/
theorem rincr_of_ready {st : RedisState} {k : String} (hok : counterOkB st k = true)
    (hb : counterVal st k + 1 ≤ maxI64) :
    rincr st k = .ok (counterVal st k + 1,
      rset st k (decRepr (counterVal st k + 1))) := by
  unfold rincr
  split
  · rename_i hx
    have hcv : counterVal st k = 0 := by
      unfold counterVal
      rw [hx]
    rw [hcv]
    norm_num
  · rename_i s hx
    split
    · rename_i hparse
      have hko : counterOkB st k = false := by
        unfold counterOkB
        rw [hx]
        show (redisParseInt s).isSome = false
        rw [hparse]
        rfl
      rw [hko] at hok
      exact Bool.noConfusion hok
    · rename_i c hparse
      have hcv : counterVal st k = c := by
        unfold counterVal
        rw [hx]
        show (redisParseInt s).getD 0 = c
        rw [hparse]
        rfl
      rw [hcv] at hb
      rw [hcv, if_pos hb]
  · rename_i l hx
    have hko : counterOkB st k = false := by
      unfold counterOkB
      rw [hx]
    rw [hko] at hok
    exact Bool.noConfusion hok

/-- A key holding the decimal text of a 64-bit integer reads back as that
counter value and is counter-usable. -/
theorem counterVal_of_decRepr {st : RedisState} {k : String} {n : Int}
    (h : rlookup st k = some (.str (decRepr n))) (hlo : minI64 ≤ n) (hhi : n ≤ maxI64) :
    counterVal st k = n ∧ counterOkB st k = true := by
  have hp := redisParseInt_decRepr n hlo hhi
  constructor
  · unfold counterVal
    rw [h]
    show (redisParseInt (decRepr n)).getD 0 = n
    rw [hp]
    rfl
  · unfold counterOkB
    rw [h]
    show (redisParseInt (decRepr n)).isSome = true
    rw [hp]
    rfl

/-- The counter key differs from the inputs-log key. -/
theorem storeQual_ne_inputsKey : storeQual ≠ inputsKey := by decide

/-- The counter key differs from the outputs-log key. -/
theorem storeQual_ne_outputsKey : storeQual ≠ outputsKey := by decide

/-- The two log keys differ. -/
theorem inputsKey_ne_outputsKey : inputsKey ≠ outputsKey := by decide

/-- A key looked up as a list reads as that log and is list-usable. -/
theorem listAt_of_lookup_list {st : RedisState} {k : String} {l : List String}
    (h : rlookup st k = some (.list l)) : listAt st k = l ∧ listOk st k = true := by
  constructor
  · unfold listAt
    rw [h]
  · unfold listOk
    rw [h]

/-- Inversion of a successful `call_history`-wrapped call: the serialized
positional tuple was pushed first, the wrapped method ran on the pushed
state, its output's text was pushed last, and the issued commands are the
input push, the inner commands, then the output push. -/
theorem call_history_ok {qual : String} {m : Method} {st : RedisState} {args : List PyVal}
    {kw : Kwargs} {out : PyVal} {stf : RedisState} {trf : List RCmd}
    (h : call_history qual m st args kw = (.ok out, stf, trf)) :
    ∃ st1 st2 tr, rpush st (qual ++ ":inputs") (pyStrTuple args) = .ok st1 ∧
      m st1 args kw = (.ok out, st2, tr) ∧
      rpush st2 (qual ++ ":outputs") (pyStr out) = .ok stf ∧
      trf = .rpush (qual ++ ":inputs") (pyStrTuple args) ::
        (tr ++ [.rpush (qual ++ ":outputs") (pyStr out)]) := by
  unfold call_history at h
  split at h
  · exact PyResult.noConfusion (congrArg Prod.fst h)
  · rename_i st1 hpush1
    split at h
    · exact PyResult.noConfusion (congrArg Prod.fst h)
    · rename_i o st2 tr hm
      split at h
      · exact PyResult.noConfusion (congrArg Prod.fst h)
      · rename_i st3 hpush2
        have h1 := congrArg Prod.fst h
        have h2 := congrArg (fun p => p.2.1) h
        have h3 := congrArg (fun p => p.2.2) h
        simp only at h1 h2 h3
        injection h1 with h1
        subst h1
        subst h2
        subst h3
        exact ⟨st1, st2, tr, hpush1, hm, hpush2, rfl⟩

/-- Inversion of a successful `count_calls`-wrapped call: the counter was
incremented first and the wrapped method ran on the incremented state; the
issued commands are the `INCR` followed by the inner commands. -/
theorem count_calls_ok {qual : String} {m : Method} {st : RedisState} {args : List PyVal}
    {kw : Kwargs} {out : PyVal} {stf : RedisState} {trf : List RCmd}
    (h : count_calls qual m st args kw = (.ok out, stf, trf)) :
    ∃ n st1, rincr st qual = .ok (n, st1) ∧
      (m st1 args kw).1 = .ok out ∧ (m st1 args kw).2.1 = stf ∧
      trf = .incr qual :: (m st1 args kw).2.2 := by
  unfold count_calls at h
  split at h
  · exact PyResult.noConfusion (congrArg Prod.fst h)
  · rename_i nst hincr
    have h1 := congrArg Prod.fst h
    have h2 := congrArg (fun p => p.2.1) h
    have h3 := congrArg (fun p => p.2.2) h
    simp only at h1 h2 h3
    exact ⟨nst.1, nst.2, hincr, h1, h2, h3.symm⟩

/-- The raw store body on one positional argument: a single `SET`. -/
theorem storeBody_app (genKey : String) (st : RedisState) (d : PyVal) :
    storeBody genKey st [d] [] =
      (.ok (.str genKey), rset st genKey (encode d), [.set genKey (encode d)]) := rfl

/-- Inversion of a successful `store` call: it returns the generated key,
issues exactly the input-log push, the counter increment, the value write
and the output-log push, in that order, and mutates the state accordingly,
leaving every other key untouched. -/
theorem store_ok {st : RedisState} {k : String} {d : PyVal} {r : PyVal} {st' : RedisState}
    {tr : List RCmd} (h : Cache.store st k d = (.ok r, st', tr)) :
    r = .str k ∧ k ≠ outputsKey ∧
    tr = [.rpush inputsKey (pyStrTuple [d]), .incr storeQual, .set k (encode d),
      .rpush outputsKey k] ∧
    rlookup st' k = some (.str (encode d)) ∧
    listAt st' outputsKey = listAt st outputsKey ++ [k] ∧
    listOk st' outputsKey = true ∧
    (k ≠ inputsKey → listAt st' inputsKey = listAt st inputsKey ++ [pyStrTuple [d]] ∧
      listOk st' inputsKey = true) ∧
    (k ≠ storeQual → counterVal st' storeQual = counterVal st storeQual + 1 ∧
      counterOkB st' storeQual = true) ∧
    (∀ key, key ≠ k → key ≠ storeQual → key ≠ inputsKey → key ≠ outputsKey →
      rlookup st' key = rlookup st key) := by
  unfold Cache.store at h
  obtain ⟨st1, st2, tr0, hpush1, hm, hpush2, htr⟩ := call_history_ok h
  obtain ⟨n, st1', hincr, hb1, hb2, hb3⟩ := count_calls_ok hm
  rw [storeBody_app] at hb1 hb2 hb3
  simp only at hb1 hb2 hb3
  injection hb1 with hb1
  subst hb1
  subst hb2
  subst hb3
  subst htr
  obtain ⟨hlkC, hn, hnlo, hnhi, hframeI⟩ := rincr_ok_spec hincr
  have hkout : k ≠ outputsKey := by
    intro he
    have he' : k = storeQual ++ ":outputs" := he
    refine rpush_ok_not_str hpush2 (encode d) ?_
    rw [← he']
    exact rlookup_rset_self _ _ _
  have hout_ne_k : (storeQual ++ ":outputs") ≠ k := fun he => hkout he.symm
  have hin_ne_out : (storeQual ++ ":outputs") ≠ (storeQual ++ ":inputs") := fun he =>
    inputsKey_ne_outputsKey he.symm
  have hout_ne_q : (storeQual ++ ":outputs") ≠ storeQual := fun he =>
    storeQual_ne_outputsKey he.symm
  have hL2out : rlookup (rset st1' k (encode d)) (storeQual ++ ":outputs") =
      rlookup st (storeQual ++ ":outputs") := by
    rw [rlookup_rset_ne _ _ _ hout_ne_k, hframeI _ hout_ne_q,
      rpush_ok_lookup_ne hpush1 hin_ne_out]
  have hlkO := rpush_ok_lookup hpush2
  obtain ⟨hlaO, hloO⟩ := listAt_of_lookup_list hlkO
  refine ⟨rfl, hkout, ?_, ?_, ?_, hloO, ?_, ?_, ?_⟩
  · rfl
  · rw [rpush_ok_lookup_ne hpush2 hkout]
    exact rlookup_rset_self _ _ _
  · show listAt st' (storeQual ++ ":outputs") = listAt st (storeQual ++ ":outputs") ++ [k]
    rw [hlaO, listAt_congr hL2out]
    rfl
  · intro hkin
    have hin_ne_k : (storeQual ++ ":inputs") ≠ k := fun he => hkin he.symm
    have hin_ne_q : (storeQual ++ ":inputs") ≠ storeQual := fun he =>
      storeQual_ne_inputsKey he.symm
    have hlkI : rlookup st' (storeQual ++ ":inputs") =
        some (.list (listAt st (storeQual ++ ":inputs") ++ [pyStrTuple [d]])) := by
      rw [rpush_ok_lookup_ne hpush2 hin_ne_out.symm, rlookup_rset_ne _ _ _ hin_ne_k,
        hframeI _ hin_ne_q]
      exact rpush_ok_lookup hpush1
    exact listAt_of_lookup_list hlkI
  · intro hkq
    have hq_ne_k : storeQual ≠ k := fun he => hkq he.symm
    have hlkQ : rlookup st' storeQual = some (.str (decRepr n)) := by
      rw [rpush_ok_lookup_ne hpush2 storeQual_ne_outputsKey, rlookup_rset_ne _ _ _ hq_ne_k]
      exact hlkC
    obtain ⟨hcv, hcb⟩ := counterVal_of_decRepr hlkQ hnlo hnhi
    refine ⟨?_, hcb⟩
    rw [hcv, hn, counterVal_congr (rpush_ok_lookup_ne hpush1 storeQual_ne_inputsKey)]
  · intro key hk1 hk2 hk3 hk4
    rw [rpush_ok_lookup_ne hpush2 hk4, rlookup_rset_ne _ _ _ hk1, hframeI _ hk2,
      rpush_ok_lookup_ne hpush1 hk3]

/-- Forward computation of `call_history` when every step succeeds. -/
theorem call_history_build {qual : String} {m : Method} {st st1 st2 st3 : RedisState}
    {args : List PyVal} {kw : Kwargs} {out : PyVal} {tr : List RCmd}
    (h1 : rpush st (qual ++ ":inputs") (pyStrTuple args) = .ok st1)
    (h2 : m st1 args kw = (.ok out, st2, tr))
    (h3 : rpush st2 (qual ++ ":outputs") (pyStr out) = .ok st3) :
    call_history qual m st args kw =
      (.ok out, st3, .rpush (qual ++ ":inputs") (pyStrTuple args) ::
        (tr ++ [.rpush (qual ++ ":outputs") (pyStr out)])) := by
  unfold call_history
  simp only [h1, h2, h3]

/-- Forward computation of `count_calls` when the increment succeeds. -/
theorem count_calls_build {qual : String} {m : Method} {st st1 : RedisState}
    {args : List PyVal} {kw : Kwargs} {n : Int}
    (h1 : rincr st qual = .ok (n, st1)) :
    count_calls qual m st args kw =
      ((m st1 args kw).1, (m st1 args kw).2.1, .incr qual :: (m st1 args kw).2.2) := by
  unfold count_calls
  simp only [h1]

/-- On a state whose instrumentation keys are usable (logs absent or lists,
counter absent or a parsable 64-bit integer with headroom), a `store` call
whose generated key avoids the outputs-log key succeeds and returns the
generated key. -/
theorem store_ready {st : RedisState} {k : String} (d : PyVal)
    (hkout : k ≠ outputsKey)
    (hin : listOk st inputsKey = true) (hout : listOk st outputsKey = true)
    (hc : counterOkB st storeQual = true)
    (hb : counterVal st storeQual + 1 ≤ maxI64) :
    ∃ st' tr, Cache.store st k d = (.ok (.str k), st', tr) := by
  obtain ⟨st1, hpush1⟩ : ∃ st1, rpush st inputsKey (pyStrTuple [d]) = .ok st1 :=
    ⟨_, rpush_of_listOk hin _⟩
  have hcb1 : counterOkB st1 storeQual = true := by
    rw [counterOkB_congr (rpush_ok_lookup_ne hpush1 storeQual_ne_inputsKey)]
    exact hc
  have hcv1 : counterVal st1 storeQual = counterVal st storeQual :=
    counterVal_congr (rpush_ok_lookup_ne hpush1 storeQual_ne_inputsKey)
  obtain ⟨n, st1', hincr⟩ : ∃ n st1', rincr st1 storeQual = .ok (n, st1') :=
    ⟨_, _, rincr_of_ready hcb1 (by rw [hcv1]; exact hb)⟩
  have hm := @count_calls_build storeQual (storeBody k) st1 st1' [d] [] n hincr
  have hm2 : count_calls storeQual (storeBody k) st1 [d] [] =
      (.ok (.str k), rset st1' k (encode d), [.incr storeQual, .set k (encode d)]) := by
    rw [hm, storeBody_app]
  have hlo2 : listOk (rset st1' k (encode d)) outputsKey = true := by
    rw [listOk_congr (rlookup_rset_ne _ _ _ (fun he => hkout he.symm))]
    obtain ⟨-, -, -, -, hframe⟩ := rincr_ok_spec hincr
    rw [listOk_congr (hframe _ (fun he => storeQual_ne_outputsKey he.symm)),
      listOk_congr (rpush_ok_lookup_ne hpush1 (fun he => inputsKey_ne_outputsKey he.symm))]
    exact hout
  have hpush2 := rpush_of_listOk hlo2 (pyStr (.str k))
  have hstore : Cache.store st k d =
      (.ok (.str k),
        rsetList (rset st1' k (encode d)) outputsKey
          (listAt (rset st1' k (encode d)) outputsKey ++ [pyStr (PyVal.str k)]),
        .rpush (storeQual ++ ":inputs") (pyStrTuple [d]) ::
          ([RCmd.incr storeQual, RCmd.set k (encode d)] ++
            [.rpush (storeQual ++ ":outputs") (pyStr (PyVal.str k))])) := by
    unfold Cache.store
    exact call_history_build hpush1 hm2 hpush2
  exact ⟨_, _, hstore⟩

/-- `LRANGE 0 -1` of a list-usable key returns its log view. -/
theorem lrangeAll_of_listOk {st : RedisState} {k : String} (h : listOk st k = true) :
    lrangeAll st k = .ok (listAt st k) := by
  unfold listOk at h
  unfold lrangeAll listAt
  cases hx : rlookup st k with
  | none => rfl
  | some rv =>
    cases rv with
    | str s =>
      rw [hx] at h
      simp at h
    | list l => rfl

/-- Full run of `replay` on a state whose counter is readable and whose log
keys are usable: it prints the header with the Python-parsed count and one
line per zipped input/output pair. -/
theorem replay_run {st : RedisState} {name : String}
    (hc : counterReadable st name = true)
    (hin : listOk st (name ++ ":inputs") = true)
    (hout : listOk st (name ++ ":outputs") = true) :
    Cache.replay st name = .ok (replayHeader name (pyCounterVal st name) ::
      ((listAt st (name ++ ":inputs")).zip (listAt st (name ++ ":outputs"))).map
        (fmtPair name)) := by
  have hlin := lrangeAll_of_listOk hin
  have hlout := lrangeAll_of_listOk hout
  unfold counterReadable at hc
  cases hx : rlookup st name with
  | none =>
    have hg : rget st name = .ok none := by
      unfold rget
      rw [hx]
    have hpc : pyCounterVal st name = 0 := by
      unfold pyCounterVal
      rw [hx]
    unfold Cache.replay
    simp only [hg, pyIntOrZero, hlin, hlout, hpc]
  | some rv =>
    cases rv with
    | str s =>
      have hg : rget st name = .ok (some s) := by
        unfold rget
        rw [hx]
      rw [hx] at hc
      by_cases hse : s = ""
      · have hpc : pyCounterVal st name = 0 := by
          unfold pyCounterVal
          rw [hx]
          show (if s = "" then 0 else (pyInt s).getD 0) = 0
          rw [if_pos hse]
        unfold Cache.replay
        simp only [hg, pyIntOrZero, hse, if_pos, hlin, hlout, hpc]
      · have hsome : (pyInt s).isSome = true := by
          simp only [decide_eq_false hse, Bool.false_or] at hc
          exact hc
        obtain ⟨v, hv⟩ := Option.isSome_iff_exists.mp hsome
        have hpc : pyCounterVal st name = v := by
          unfold pyCounterVal
          rw [hx]
          show (if s = "" then 0 else (pyInt s).getD 0) = v
          rw [if_neg hse, hv]
          rfl
        unfold Cache.replay
        simp only [hg, pyIntOrZero, hse, if_neg, hv, hlin, hlout, hpc]
        simp [hse]
    | list l =>
      rw [hx] at hc
      exact absurd hc (by simp)

/-- Claim C1: for every value of one of the four supported scalar types,
`get` with no converter on the identifier returned by a completed
`store(v)` returns exactly the raw bytes the store's client encoding
produced for `v`. -/
theorem claim1_store_get_roundtrip (st : RedisState) (v : PyVal) (k : String) (r : PyVal)
    (st' : RedisState) (tr : List RCmd) (h : Cache.store st k v = (.ok r, st', tr)) :
    r = .str k ∧ Cache.get st' k none = .ok (some (.bytes (encode v))) := by
  obtain ⟨hr, -, -, hlk, -⟩ := store_ok h
  refine ⟨hr, ?_⟩
  unfold Cache.get rget
  rw [hlk]

/-- Witness for C1 at a concrete run: storing the text value `v` under the
generated key `k0` from the flushed state and reading it back. -/
theorem claim1_witness :
    Cache.get [("Cache.store:outputs", RVal.list ["k0"]), ("k0", RVal.str "v"),
      ("Cache.store", RVal.str "1"), ("Cache.store:inputs", RVal.list ["('v',)"])]
      "k0" none = .ok (some (.bytes "v")) :=
  (claim1_store_get_roundtrip [] (PyVal.str "v") "k0" (PyVal.str "k0")
    [("Cache.store:outputs", RVal.list ["k0"]), ("k0", RVal.str "v"),
      ("Cache.store", RVal.str "1"), ("Cache.store:inputs", RVal.list ["('v',)"])]
    [.rpush "Cache.store:inputs" "('v',)", .incr "Cache.store", .set "k0" "v",
      .rpush "Cache.store:outputs" "k0"]
    (by decide)).2

/-- Claim C2: `get` on a key that was never written — in particular any key
after a fresh `Cache.__init__` — returns the `None` sentinel without
raising, for every converter, and the converter is never consulted (the
result coincides with the converter-free call for every converter,
including one that always raises). -/
theorem claim2_get_missing (st : RedisState) (key : String) (h : rlookup st key = none) :
    (∀ fn, Cache.get st key fn = .ok none) ∧
    (∀ f, Cache.get st key (some f) = Cache.get st key none) ∧
    (∀ (prior : RedisState) fn, Cache.get (Cache.initCache prior) key fn = .ok none) := by
  have hbase : ∀ fn, Cache.get st key fn = .ok none := by
    intro fn
    unfold Cache.get rget
    rw [h]
  refine ⟨hbase, fun f => (hbase (some f)).trans (hbase none).symm, ?_⟩
  intro prior fn
  unfold Cache.get rget Cache.initCache flushdb
  rfl

/-- Witness for C2: a missing key with a converter that always raises still
returns the sentinel. -/
theorem claim2_witness :
    Cache.get [] "nonexistent-uuid" (some (fun _ => .error .valueError)) = .ok none :=
  (claim2_get_missing [] "nonexistent-uuid" rfl).1 (some (fun _ => .error .valueError))

/-- Claim C8: after `Cache.__init__` flushes the database, every method
name has counter zero (under both the Redis and the Python reading) and
empty input and output logs. -/
theorem claim8_init_clean (prior : RedisState) (name : String) :
    counterVal (Cache.initCache prior) name = 0 ∧
    pyCounterVal (Cache.initCache prior) name = 0 ∧
    listAt (Cache.initCache prior) (name ++ ":inputs") = [] ∧
    listAt (Cache.initCache prior) (name ++ ":outputs") = [] :=
  ⟨rfl, rfl, rfl, rfl⟩

/-- Counterexample to claim C5 as stated: the Redis command sequence a
`store` call actually issues differs from the sequence prescribed by the
spec's order (write value, increment counter, append input and output):
the code appends the input-log entry and increments the counter before
generating/writing the key. -/
theorem claim5_counterexample :
    (Cache.store [] "k0" (PyVal.str "v")).2.2 ≠ specOrderStoreCmds "k0" (PyVal.str "v") := by
  decide

/-- Claim C5 as amended: every completed `store(value)` call performs, in
this order, the append of the serialized positional-argument tuple to the
inputs log, the increment of the operation-name counter, the write of the
encoded value under the freshly generated identifier, and the append of
the identifier to the outputs log, and returns the identifier. -/
theorem claim5_amended (st : RedisState) (k : String) (d : PyVal) (r : PyVal)
    (st' : RedisState) (tr : List RCmd) (h : Cache.store st k d = (.ok r, st', tr)) :
    r = .str k ∧
    tr = [.rpush inputsKey (pyStrTuple [d]), .incr storeQual, .set k (encode d),
      .rpush outputsKey k] ∧
    rlookup st' k = some (.str (encode d)) ∧
    (k ≠ storeQual → counterVal st' storeQual = counterVal st storeQual + 1) ∧
    (k ≠ inputsKey → listAt st' inputsKey = listAt st inputsKey ++ [pyStrTuple [d]]) ∧
    listAt st' outputsKey = listAt st outputsKey ++ [k] := by
  obtain ⟨hr, -, htr, hlk, hlo, -, hin, hq, -⟩ := store_ok h
  exact ⟨hr, htr, hlk, fun hkq => (hq hkq).1, fun hkin => (hin hkin).1, hlo⟩

/-- Witness for the amended C5 at a concrete run: the counter moved from 0
to 1. -/
theorem claim5_witness :
    counterVal [("Cache.store:outputs", RVal.list ["k0"]), ("k0", RVal.str "v"),
      ("Cache.store", RVal.str "1"), ("Cache.store:inputs", RVal.list ["('v',)"])]
      storeQual = counterVal ([] : RedisState) storeQual + 1 :=
  (claim5_amended [] "k0" (PyVal.str "v") (PyVal.str "k0")
    [("Cache.store:outputs", RVal.list ["k0"]), ("k0", RVal.str "v"),
      ("Cache.store", RVal.str "1"), ("Cache.store:inputs", RVal.list ["('v',)"])]
    [.rpush "Cache.store:inputs" "('v',)", .incr "Cache.store", .set "k0" "v",
      .rpush "Cache.store:outputs" "k0"]
    (by decide)).2.2.2.1 (by decide)

/-- Counterexample to claim C3 as stated ("starting from any state"): from
a state whose counter key holds non-numeric text, a store call raises at
the `INCR`, so one call increments the counter by zero — not one — and
appends nothing to the outputs log. -/
theorem claim3_counterexample :
    counterVal (storeN [("Cache.store", RVal.str "x")] [("k", PyVal.str "v")]).2 storeQual ≠
      counterVal [("Cache.store", RVal.str "x")] storeQual + 1 ∧
    (listAt (storeN [("Cache.store", RVal.str "x")] [("k", PyVal.str "v")]).2
        outputsKey).length ≠
      (listAt [("Cache.store", RVal.str "x")] outputsKey).length + 1 := by
  decide

/-- Claim C3 as amended: from any state whose instrumentation keys are
well formed (log keys absent or lists, counter key absent or Redis-parsable
with headroom for the calls) and with generated identifiers distinct from
the three instrumentation keys, calling `store` n times increments the
counter by exactly n and appends exactly n entries to each log, in call
order. -/
theorem claim3_amended (st : RedisState) (calls : List (String × PyVal))
    (hres : ∀ p ∈ calls, p.1 ≠ storeQual ∧ p.1 ≠ inputsKey ∧ p.1 ≠ outputsKey)
    (hin : listOk st inputsKey = true) (hout : listOk st outputsKey = true)
    (hc : counterOkB st storeQual = true)
    (hb : counterVal st storeQual + calls.length ≤ maxI64) :
    (storeN st calls).1 = .ok () ∧
    counterVal (storeN st calls).2 storeQual = counterVal st storeQual + calls.length ∧
    listAt (storeN st calls).2 inputsKey =
      listAt st inputsKey ++ calls.map (fun p => pyStrTuple [p.2]) ∧
    listAt (storeN st calls).2 outputsKey =
      listAt st outputsKey ++ calls.map Prod.fst := by
  induction calls generalizing st with
  | nil =>
    refine ⟨rfl, by simp [storeN], by simp [storeN], by simp [storeN]⟩
  | cons p rest ih =>
    obtain ⟨k, d⟩ := p
    obtain ⟨hk1, hk2, hk3⟩ := hres (k, d) (List.mem_cons_self _ _)
    have hres' : ∀ q ∈ rest, q.1 ≠ storeQual ∧ q.1 ≠ inputsKey ∧ q.1 ≠ outputsKey :=
      fun q hq => hres q (List.mem_cons_of_mem _ hq)
    have hb1 : counterVal st storeQual + 1 ≤ maxI64 := by
      simp only [List.length_cons] at hb
      push_cast at hb ⊢
      omega
    obtain ⟨st', tr, hstore⟩ := store_ready d hk3 hin hout hc hb1
    obtain ⟨-, -, -, -, hlo, hloOk, hinF, hqF, -⟩ := store_ok hstore
    obtain ⟨hla_in, hlo_in⟩ := hinF hk2
    obtain ⟨hcv', hcb'⟩ := hqF hk1
    have hsn : storeN st ((k, d) :: rest) = storeN st' rest := by
      show (match Cache.store st k d with
        | (.ok _, st2, _) => storeN st2 rest
        | (.error e, st2, _) => (.error e, st2)) = storeN st' rest
      rw [hstore]
    have hb' : counterVal st' storeQual + rest.length ≤ maxI64 := by
      rw [hcv']
      simp only [List.length_cons] at hb
      push_cast at hb ⊢
      omega
    obtain ⟨hok, hcnt, hlin, hlout⟩ := ih st' hres' hlo_in hloOk hcb' hb'
    rw [hsn]
    refine ⟨hok, ?_, ?_, ?_⟩
    · rw [hcnt, hcv']
      simp only [List.length_cons]
      push_cast
      ring
    · rw [hlin, hla_in]
      simp
    · rw [hlout, hlo]
      simp

/-- Witness for the amended C3: two stores from the flushed state append
both generated keys to the outputs log in call order. -/
theorem claim3_witness :
    listAt (storeN [] [("k0", PyVal.str "a"), ("k1", PyVal.str "b")]).2 outputsKey =
      listAt ([] : RedisState) outputsKey ++
        ([("k0", PyVal.str "a"), ("k1", PyVal.str "b")]).map Prod.fst :=
  (claim3_amended [] [("k0", PyVal.str "a"), ("k1", PyVal.str "b")]
    (by decide) rfl rfl rfl (by decide)).2.2.2

/-- Claim C4: in every state reachable by the facade's completed
operations the inputs log and the outputs log of the instrumented method
have equal length, and each completed `store` call pushes exactly one
entry onto each log. -/
theorem claim4_log_invariant :
    (∀ st, Reachable st → (listAt st inputsKey).length = (listAt st outputsKey).length) ∧
    (∀ st k d r st' tr, Cache.store st k d = (.ok r, st', tr) → k ≠ inputsKey →
      (listAt st' inputsKey).length = (listAt st inputsKey).length + 1 ∧
      (listAt st' outputsKey).length = (listAt st outputsKey).length + 1) := by
  have hstep : ∀ (st : RedisState) k d (r : PyVal) st' (tr : List RCmd),
      Cache.store st k d = (.ok r, st', tr) → k ≠ inputsKey →
      (listAt st' inputsKey).length = (listAt st inputsKey).length + 1 ∧
      (listAt st' outputsKey).length = (listAt st outputsKey).length + 1 := by
    intro st k d r st' tr h hkin
    obtain ⟨-, -, -, -, hlo, -, hin, -, -⟩ := store_ok h
    constructor
    · rw [(hin hkin).1]
      simp
    · rw [hlo]
      simp
  constructor
  · intro st hreach
    induction hreach with
    | init => rfl
    | store st st' k d r tr hre hk1 hk2 hk3 hstore ih =>
      obtain ⟨h1, h2⟩ := hstep _ _ _ _ _ _ hstore hk2
      rw [h1, h2, ih]
  · exact hstep

/-- Witness for C4 at the state reached by one completed store from the
flushed state. -/
theorem claim4_witness :
    (listAt [("Cache.store:outputs", RVal.list ["k0"]), ("k0", RVal.str "v"),
      ("Cache.store", RVal.str "1"), ("Cache.store:inputs", RVal.list ["('v',)"])]
      inputsKey).length =
    (listAt [("Cache.store:outputs", RVal.list ["k0"]), ("k0", RVal.str "v"),
      ("Cache.store", RVal.str "1"), ("Cache.store:inputs", RVal.list ["('v',)"])]
      outputsKey).length :=
  claim4_log_invariant.1 _
    (Reachable.store [] _ "k0" (PyVal.str "v") (PyVal.str "k0")
      [.rpush "Cache.store:inputs" "('v',)", .incr "Cache.store", .set "k0" "v",
        .rpush "Cache.store:outputs" "k0"]
      Reachable.init (by decide) (by decide) (by decide) (by decide))

/-- Claim C6: `get_str` on a key whose value was stored as UTF-8 text
returns that exact text, `get_int` on a key whose value was stored as the
base-10 text of an integer returns that exact integer, and each typed
getter is the generic `get` with the corresponding converter. -/
theorem claim6_typed_getters (st : RedisState) (k : String) (s : String) (n : Int)
    (r1 r2 : PyVal) (st1 st2 : RedisState) (tr1 tr2 : List RCmd)
    (h1 : Cache.store st k (.str s) = (.ok r1, st1, tr1))
    (h2 : Cache.store st k (.str (decRepr n)) = (.ok r2, st2, tr2)) :
    Cache.get_str st1 k = .ok (some (.str s)) ∧
    Cache.get_int st2 k = .ok (some (.int n)) ∧
    (∀ st0 key, Cache.get_str st0 key = Cache.get st0 key (some decodeUtf8) ∧
      Cache.get_int st0 key = Cache.get st0 key (some pyIntFn)) := by
  obtain ⟨-, -, -, hlk1, -⟩ := store_ok h1
  obtain ⟨-, -, -, hlk2, -⟩ := store_ok h2
  refine ⟨?_, ?_, fun st0 key => ⟨rfl, rfl⟩⟩
  · unfold Cache.get_str Cache.get rget
    rw [hlk1]
    rfl
  · unfold Cache.get_int Cache.get rget
    rw [hlk2]
    show (match pyIntFn (decRepr n) with
      | .error e => PyResult.error e
      | .ok v => .ok (some v)) = .ok (some (.int n))
    unfold pyIntFn
    rw [pyInt_decRepr n]

/-- Witness for C6: reading back the stored text `v` and the stored
decimal text of 7. -/
theorem claim6_witness :
    Cache.get_str [("Cache.store:outputs", RVal.list ["k0"]), ("k0", RVal.str "v"),
      ("Cache.store", RVal.str "1"), ("Cache.store:inputs", RVal.list ["('v',)"])] "k0" =
      .ok (some (.str "v")) ∧
    Cache.get_int [("Cache.store:outputs", RVal.list ["k0"]), ("k0", RVal.str "7"),
      ("Cache.store", RVal.str "1"), ("Cache.store:inputs", RVal.list ["('7',)"])] "k0" =
      .ok (some (.int 7)) := by
  have h := claim6_typed_getters [] "k0" "v" 7 (PyVal.str "k0") (PyVal.str "k0")
    [("Cache.store:outputs", RVal.list ["k0"]), ("k0", RVal.str "v"),
      ("Cache.store", RVal.str "1"), ("Cache.store:inputs", RVal.list ["('v',)"])]
    [("Cache.store:outputs", RVal.list ["k0"]), ("k0", RVal.str "7"),
      ("Cache.store", RVal.str "1"), ("Cache.store:inputs", RVal.list ["('7',)"])]
    [.rpush "Cache.store:inputs" "('v',)", .incr "Cache.store", .set "k0" "v",
      .rpush "Cache.store:outputs" "k0"]
    [.rpush "Cache.store:inputs" "('7',)", .incr "Cache.store", .set "k0" "7",
      .rpush "Cache.store:outputs" "k0"]
    (by decide) (by decide)
  exact ⟨h.1, h.2.1⟩

/-- Counterexample to claim C7 as stated ("for every state of the store"):
on a state whose counter key for the method holds non-numeric text,
`replay` raises `ValueError` at `int(...)` before printing anything, so it
does not print the recorded pairs there. -/
theorem claim7_counterexample :
    Cache.replay [("m", RVal.str "x")] "m" = .error PyErr.valueError := by
  decide

/-- Claim C7 as amended: `replay` issues only read commands, so it leaves
every store state unchanged; and on every state whose counter entry for
the method is readable and whose log keys are usable with equally long
logs, it prints the header with the parsed count followed by every
recorded `(input, output)` pair, in insertion order. -/
theorem claim7_amended :
    (∀ (st : RedisState) (name : String), (replayCmds name).foldl execCmd st = st) ∧
    (∀ (st : RedisState) (name : String), counterReadable st name = true →
      listOk st (name ++ ":inputs") = true → listOk st (name ++ ":outputs") = true →
      (listAt st (name ++ ":inputs")).length = (listAt st (name ++ ":outputs")).length →
      Cache.replay st name = .ok (replayHeader name (pyCounterVal st name) ::
        ((listAt st (name ++ ":inputs")).zip (listAt st (name ++ ":outputs"))).map
          (fmtPair name)) ∧
      (((listAt st (name ++ ":inputs")).zip (listAt st (name ++ ":outputs"))).map
        (fmtPair name)).length = (listAt st (name ++ ":inputs")).length) := by
  constructor
  · intro st name
    rfl
  · intro st name hc hin hout hlen
    refine ⟨replay_run hc hin hout, ?_⟩
    rw [List.length_map, List.length_zip, hlen, min_self]

/-- Witness for the amended C7 on a state with two completed calls
recorded. -/
theorem claim7_witness :
    Cache.replay [("Cache.store", RVal.str "2"),
      ("Cache.store:inputs", RVal.list ["('a',)", "('b',)"]),
      ("Cache.store:outputs", RVal.list ["k0", "k1"])] "Cache.store" =
      .ok (replayHeader "Cache.store"
          (pyCounterVal [("Cache.store", RVal.str "2"),
            ("Cache.store:inputs", RVal.list ["('a',)", "('b',)"]),
            ("Cache.store:outputs", RVal.list ["k0", "k1"])] "Cache.store") ::
        ((listAt [("Cache.store", RVal.str "2"),
            ("Cache.store:inputs", RVal.list ["('a',)", "('b',)"]),
            ("Cache.store:outputs", RVal.list ["k0", "k1"])] ("Cache.store" ++ ":inputs")).zip
          (listAt [("Cache.store", RVal.str "2"),
            ("Cache.store:inputs", RVal.list ["('a',)", "('b',)"]),
            ("Cache.store:outputs", RVal.list ["k0", "k1"])]
            ("Cache.store" ++ ":outputs"))).map (fmtPair "Cache.store")) :=
  (claim7_amended.2 [("Cache.store", RVal.str "2"),
    ("Cache.store:inputs", RVal.list ["('a',)", "('b',)"]),
    ("Cache.store:outputs", RVal.list ["k0", "k1"])] "Cache.store"
    (by decide) (by decide) (by decide) (by decide)).1

/-- Claim C9: a `call_history`-wrapped call made with keyword arguments
logs only the serialized positional tuple — the recorded entry is
`str(args)` whatever the keyword arguments are — while the keyword
arguments are passed through to the wrapped method, whose output is
returned and logged. -/
theorem claim9_kwargs_omitted (m : Method) (qual : String) (st st1 st2 st3 : RedisState)
    (args : List PyVal) (kwargs : Kwargs) (out : PyVal) (tr : List RCmd)
    (hpush : rpush st (qual ++ ":inputs") (pyStrTuple args) = .ok st1)
    (hm : m st1 args kwargs = (.ok out, st2, tr))
    (hpush2 : rpush st2 (qual ++ ":outputs") (pyStr out) = .ok st3) :
    listAt st1 (qual ++ ":inputs") = listAt st (qual ++ ":inputs") ++ [pyStrTuple args] ∧
    (∀ kw2 : Kwargs, ((call_history qual m st args kw2).2.2).head? =
      some (.rpush (qual ++ ":inputs") (pyStrTuple args))) ∧
    call_history qual m st args kwargs =
      (.ok out, st3, .rpush (qual ++ ":inputs") (pyStrTuple args) ::
        (tr ++ [.rpush (qual ++ ":outputs") (pyStr out)])) := by
  refine ⟨(listAt_of_lookup_list (rpush_ok_lookup hpush)).1, ?_,
    call_history_build hpush hm hpush2⟩
  intro kw2
  unfold call_history
  split
  · rfl
  · split
    · rfl
    · split
      · rfl
      · rfl

/-- Witness for C9: calling the store body through `call_history` with the
value passed as the keyword argument `data` logs the empty positional
tuple `()` and still succeeds. -/
theorem claim9_witness :
    listAt [("Cache.store:inputs", RVal.list ["()"])] ("Cache.store" ++ ":inputs") =
      listAt ([] : RedisState) ("Cache.store" ++ ":inputs") ++ [pyStrTuple []] :=
  (claim9_kwargs_omitted (storeBody "k1") "Cache.store" []
    [("Cache.store:inputs", RVal.list ["()"])]
    [("k1", RVal.str "v"), ("Cache.store:inputs", RVal.list ["()"])]
    [("Cache.store:outputs", RVal.list ["k1"]), ("k1", RVal.str "v"),
      ("Cache.store:inputs", RVal.list ["()"])]
    [] [("data", PyVal.str "v")] (PyVal.str "k1") [.set "k1" "v"]
    (by decide) (by decide) (by decide)).1

/-- Claim C10: when the method's call-counter key is absent, `replay`
reports a call count of zero (the missing reply is treated as 0) rather
than failing. -/
theorem claim10_missing_counter (st : RedisState) (name : String)
    (habs : rlookup st name = none)
    (hin : listOk st (name ++ ":inputs") = true)
    (hout : listOk st (name ++ ":outputs") = true) :
    Cache.replay st name = .ok (replayHeader name 0 ::
      ((listAt st (name ++ ":inputs")).zip (listAt st (name ++ ":outputs"))).map
        (fmtPair name)) := by
  have hc : counterReadable st name = true := by
    unfold counterReadable
    rw [habs]
  have hpc : pyCounterVal st name = 0 := by
    unfold pyCounterVal
    rw [habs]
  have hrun := replay_run hc hin hout
  rw [hpc] at hrun
  exact hrun

/-- Witness for C10 on the flushed state: the header reports zero calls. -/
theorem claim10_witness :
    Cache.replay [] "m" = .ok [replayHeader "m" 0] :=
  claim10_missing_counter [] "m" rfl rfl rfl

end Exercise
